import Mathlib

/-!
Verification of the pysashimi coordinate-transformation and layout core.

This file gives a shallow embedding of the layout computations in
`src/utils/sashimi_plot_utils.py` and `src/new_src/sashimi_plot_utils.py`
(floating-point arithmetic is modelled over the rationals) and proves or
refutes the documented properties of the coordinate scaler, the depth
compressor, the junction layout and the axis bounds.
-/

/-- A Python runtime value that may hold a string or an integer.  The
`get_scaling` functions compare their `strand` argument against the plus
sign; `plot_density` in `utils` passes the region's strand string while
`plot_density` in `new_src` passes the region's integer start coordinate,
so the embedding keeps the dynamic type of that argument. -/
inductive PyVal where
  | strv (s : String)
  | intv (n : ℤ)
deriving DecidableEq

/-- The string literal that `get_scaling` compares the strand against. -/
def plusSign : String := "+"

/-- Python `strand == '+'` on a dynamically typed value: an integer never
compares equal to a string. -/
def PyVal.isPlusStr : PyVal → Bool
  | PyVal.strv s => decide (s = plusSign)
  | PyVal.intv _ => false

/-- The strand value `utils/plot_density` hands to `get_scaling` for a
plus-strand region (it passes `splice_region.strand`). -/
def plusStrand : PyVal := PyVal.strv plusSign

/-- Embeds `new_src/sashimi_plot_utils.py` line 298,
`strand = splice_region.start`: the value later compared with the plus sign
inside `get_scaling` is the region's integer start coordinate, not its
strand string. -/
def newsrc_strand_arg (region_start : ℤ) : PyVal := PyVal.intv region_start

/-- Normalisation of one Python slice endpoint for a length-`L` array:
a negative endpoint counts from the end of the array and endpoints are
clipped into `[0, L]`.  This is the semantics of the assignment
`exon_coords[exon_starts[i] - tx_start : exon_ends[i] - tx_start] = 1`
in `get_scaling` (both files). -/
def pySliceIdx (L : ℕ) (a : ℤ) : ℕ :=
  if a < 0 then ((L : ℤ) + a).toNat else min a.toNat L

/-- Offset `i` of the region is marked exonic when some half-open slice
`[exon_start - tx_start, exon_end - tx_start)` of the `exon_coords` array
covers it (first loop of `get_scaling`, identical in both files). -/
def exonic (L : ℕ) (tx_start : ℤ) (exon_starts exon_ends : List ℤ) (i : ℕ) : Bool :=
  (exon_starts.zip exon_ends).any fun se =>
    decide (pySliceIdx L (se.1 - tx_start) ≤ i) && decide (i < pySliceIdx L (se.2 - tx_start))

/-- Per-offset advance of the cumulative plot coordinate `x` in
`get_scaling`: `1/exon_scale` on an exonic offset, `1/intron_scale`
otherwise. -/
def scalingInc (exo : ℕ → Bool) (exon_scale intron_scale : ℚ) (i : ℕ) : ℚ :=
  if exo i then 1 / exon_scale else 1 / intron_scale

/-- The recording loop of `get_scaling`: starting at offset `i` with
cumulative coordinate `x`, record `x`, then advance `x` by the increment of
the current offset, for `n` iterations.  The recorded values, in recording
order, are the plot coordinates in walk order. -/
def walkFrom (inc : ℕ → ℚ) : ℕ → ℕ → ℚ → List ℚ
  | 0, _, _ => []
  | n + 1, i, x => x :: walkFrom inc n (i + 1) (x + inc i)

/-- The forward walk of `get_scaling` (the branch taken when
`strand == '+' or not reverse_minus`): the plot coordinates in walk order
over genomic offsets `0 .. tx_end - tx_start`. -/
def get_scaling_walk (tx_start tx_end : ℤ) (exon_starts exon_ends : List ℤ)
    (intron_scale exon_scale : ℚ) : List ℚ :=
  walkFrom
    (scalingInc (exonic (tx_end - tx_start + 1).toNat tx_start exon_starts exon_ends)
      exon_scale intron_scale)
    (tx_end - tx_start + 1).toNat 0 0

/-- The `graph_coords` array returned by `get_scaling` (identical in both
files).  The branch `strand == '+' or not reverse_minus` fills it
front-to-back with the forward walk; the other branch walks the genomic
offsets in descending order (it reads `exon_coords[-(i + 1)]`) while
filling slot `length - 1 - i`, which makes the array the reverse of a walk
over the reversed offset order. -/
def get_scaling_coords (tx_start tx_end : ℤ) (strand : PyVal)
    (exon_starts exon_ends : List ℤ) (intron_scale exon_scale : ℚ)
    (reverse_minus : Bool) : List ℚ :=
  if strand.isPlusStr || !reverse_minus then
    get_scaling_walk tx_start tx_end exon_starts exon_ends intron_scale exon_scale
  else
    (walkFrom
      (fun j =>
        scalingInc (exonic (tx_end - tx_start + 1).toNat tx_start exon_starts exon_ends)
          exon_scale intron_scale ((tx_end - tx_start + 1).toNat - 1 - j))
      (tx_end - tx_start + 1).toNat 0 0).reverse

/-- The strand value for a minus-strand region as `utils/plot_density`
passes it (`splice_region.strand`). -/
def minusSign : String := "-"

/-- The minus-strand value of the `strand` argument. -/
def minusStrand : PyVal := PyVal.strv minusSign

/-- The plot-coordinate sequence of `get_scaling` in walk order, for either
branch: the forward branch walks genomic offsets ascending; the
`reverse_minus` branch walks them descending (it reads
`exon_coords[-(i + 1)]`), recording the same cumulative `x` either way.
The returned `graph_coords` array is this sequence, reversed in the second
branch (see `get_scaling_coords`). -/
def get_scaling_walk_order (tx_start tx_end : ℤ) (strand : PyVal)
    (exon_starts exon_ends : List ℤ) (intron_scale exon_scale : ℚ)
    (reverse_minus : Bool) : List ℚ :=
  if strand.isPlusStr || !reverse_minus then
    get_scaling_walk tx_start tx_end exon_starts exon_ends intron_scale exon_scale
  else
    walkFrom
      (fun j =>
        scalingInc (exonic (tx_end - tx_start + 1).toNat tx_start exon_starts exon_ends)
          exon_scale intron_scale ((tx_end - tx_start + 1).toNat - 1 - j))
      (tx_end - tx_start + 1).toNat 0 0

/-- The genomic offset visited at step `j` of the `get_scaling` walk:
`j` itself on the forward branch, `length - 1 - j` on the `reverse_minus`
branch, which walks the offsets in descending order. -/
def get_scaling_visited (tx_start tx_end : ℤ) (strand : PyVal) (reverse_minus : Bool)
    (j : ℕ) : ℕ :=
  if strand.isPlusStr || !reverse_minus then j
  else (tx_end - tx_start + 1).toNat - 1 - j

/-- `__get_limited_index__` from `utils/sashimi_plot_utils.py`: clamp an
index into `[0, length - 1]` and report whether it had to be modified. -/
def get_limited_index (num : ℤ) (length : ℕ) : ℤ × Bool :=
  if num < 0 then (0, true)
  else if (length : ℤ) ≤ num then ((length : ℤ) - 1, true)
  else (num, false)

/-- A splice junction: genomic start and end coordinates.  `end` is a
reserved word in Lean, so the second field is named `stop`. -/
structure Junction where
  start : ℤ
  stop : ℤ
deriving DecidableEq

/-- Genomic span `end - start`, the sort key used by
`utils/plot_density_single`. -/
def Junction.span (j : Junction) : ℤ := j.stop - j.start

/-- Endpoint resolution for one junction in `utils/plot_density_single`
(lines 217-218): the left endpoint resolves to index
`start - tx_start - 1`, the right endpoint to `end - tx_start`, both
clamped by `__get_limited_index__` together with the modified flag. -/
def junction_ss_flags (tx_start : ℤ) (L : ℕ) (j : Junction) : (ℤ × Bool) × (ℤ × Bool) :=
  (get_limited_index (j.start - tx_start - 1) L, get_limited_index (j.stop - tx_start) L)

/-- The order in which `utils/plot_density_single` lays junctions out:
`sorted(jxns.keys(), key=lambda x: x.end - x.start, reverse=True)`, i.e.
`a` may precede `b` exactly when the span of `a` is at least the span of
`b`; Python sorting is stable, so ties keep the input order. -/
def spanGE (a b : Junction) : Prop := Junction.span b ≤ Junction.span a

instance : DecidableRel spanGE := fun a b =>
  inferInstanceAs (Decidable (Junction.span b ≤ Junction.span a))

instance : IsTotal Junction spanGE :=
  ⟨fun a b => le_total (Junction.span b) (Junction.span a)⟩

instance : IsTrans Junction spanGE :=
  ⟨fun _ _ _ hab hbc => le_trans hbc hab⟩

/-- Modelled from the spec: the `Junction` class compared by
`sorted(jxns.keys())` in `new_src/plot_density_single` lives in
`new_src/transcripts.py`, which is not under `src/`; the spec's data model
gives the class only its `(start, end)` genomic coordinates, so its natural
order is modelled as the lexicographic order on `(start, stop)`. -/
def jle (a b : Junction) : Prop :=
  a.start < b.start ∨ (a.start = b.start ∧ a.stop ≤ b.stop)

instance : DecidableRel jle := fun a b =>
  inferInstanceAs (Decidable (a.start < b.start ∨ (a.start = b.start ∧ a.stop ≤ b.stop)))

instance : IsTotal Junction jle := by
  constructor
  intro a b
  simp only [jle]
  omega

instance : IsTrans Junction jle := by
  constructor
  intro a b c hab hbc
  simp only [jle] at hab hbc ⊢
  omega

/-- The junction ordering of `utils/plot_density_single` lines 195-199:
a stable sort by genomic span, descending.  Python `sorted` is a stable
sort, embedded here as insertion sort (which is stable). -/
def utils_sort (l : List Junction) : List Junction := List.insertionSort spanGE l

/-- The junction ordering of `new_src/plot_density_single` line 141:
`sorted(jxns.keys())`, a stable sort by the junctions' natural order. -/
def newsrc_sort (l : List Junction) : List Junction := List.insertionSort jle l

/-- The four bezier control points built for one junction by
`utils/plot_density_single` lines 228-261.  `plotted_count` is the rank in
layout order; `ss1`/`ss2` are the plot coordinates of the resolved
endpoints, `ss1_modified`/`ss2_modified` their clamp flags,
`left_dens`/`right_dens` the depth-array values at the resolved indices. -/
def utils_junction_pts (plotted_count : ℕ) (ss1 ss2 : ℚ) (ss1_modified ss2_modified : Bool)
    (left_dens right_dens : ℚ) (no_bam : Bool) (current_height : ℚ) : List (ℚ × ℚ) :=
  if plotted_count % 2 = 0 then
    [(ss1, if ss1_modified then -current_height else 0),
     (ss1, -current_height),
     (ss2, -current_height),
     (ss2, if ss2_modified then -current_height else 0)]
  else
    [(ss1, if ss1_modified then (if no_bam then left_dens / 2 else left_dens) + current_height
           else (if no_bam then left_dens / 2 else left_dens)),
     (ss1, (if no_bam then left_dens / 2 else left_dens) + current_height),
     (ss2, (if no_bam then right_dens / 2 else right_dens) + current_height),
     (ss2, if ss2_modified then (if no_bam then right_dens / 2 else right_dens) + current_height
           else (if no_bam then right_dens / 2 else right_dens))]

/-- The four bezier control points built for one junction by
`new_src/plot_density_single` lines 155-178 (no clamp flags there). -/
def newsrc_junction_pts (plotted_count : ℕ) (ss1 ss2 left_dens right_dens current_height : ℚ) :
    List (ℚ × ℚ) :=
  if plotted_count % 2 = 1 then
    [(ss1, 0), (ss1, -current_height), (ss2, -current_height), (ss2, 0)]
  else
    [(ss1, left_dens), (ss1, left_dens + current_height),
     (ss2, right_dens + current_height), (ss2, right_dens)]

/-- Stroke width of one junction in `utils/plot_density_single` lines
287-301: `(count - min_count) / gap` when the count gap is positive, `0`
otherwise, plus the fixed `0.2` passed as `lw=line_width + 0.2`. -/
def utils_line_width (count min_count max_count : ℚ) : ℚ :=
  (if max_count - min_count > 0 then (count - min_count) / (max_count - min_count) else 0) + 0.2

/-- Stroke width of one junction in `new_src/plot_density_single` line 208:
the fixed value `lw=0.5`, independent of any junction count. -/
def newsrc_line_width : ℚ := 0.5

/-- The stroke-width formula exactly as the spec words it, for comparison
with the implementations:
`minWidth + (count - minCountInSet) / (maxCountInSet - minCountInSet)`. -/
def spec_stroke_width (minWidth count minCount maxCount : ℚ) : ℚ :=
  minWidth + (count - minCount) / (maxCount - minCount)

/-- Python's `%` by two on a (finite) float value, used by the parity test
`max_used_y_val % 2 == 1`. -/
def pyFloatMod2 (q : ℚ) : ℚ := q - 2 * ((⌊q / 2⌋ : ℤ) : ℚ)

/-- The per-panel upper y bound of `utils/plot_density` lines 555-563:
each panel's own `read_depth.max`, incremented by one when odd.  It is
computed inside the per-sample loop, separately for every panel. -/
def utils_panel_bound (panel_max : ℚ) : ℚ :=
  if pyFloatMod2 panel_max = 1 then panel_max + 1 else panel_max

/-- The upper y bounds `utils/plot_density` assigns to a list of panels,
one bound per panel from that panel's own maximum. -/
def utils_panel_bounds (panel_maxes : List ℚ) : List ℚ :=
  panel_maxes.map utils_panel_bound

/-- Python `max` over a non-empty list (the empty case never occurs: at
least one sample panel exists). -/
def pyListMax : List ℚ → ℚ
  | [] => 0
  | x :: xs => xs.foldl max x

/-- The single shared upper y bound of `new_src/plot_density` lines
390-397: the ceiling of the maximum of all panels' axis upper limits,
incremented by one when odd; it is then applied to every panel. -/
def newsrc_shared_bound (used_yvals : List ℚ) : ℤ :=
  if ⌈pyListMax used_yvals⌉ % 2 = 1 then ⌈pyListMax used_yvals⌉ + 1 else ⌈pyListMax used_yvals⌉

/-- Loop state of the depth-compression loop in
`new_src/plot_density_single` lines 109-122: the bucket start coordinate
`prevx`, the pending depth values `tmpval`, and the emitted output lists
`compressed_x` and `compressed_wiggle`. -/
structure CompState where
  prevx : ℚ
  tmpval : List ℚ
  xs : List ℚ
  ws : List ℚ
deriving DecidableEq

/-- One iteration of the compression loop: append the sample's depth to the
pending bucket; when the sample's coordinate is more than `resolution` away
from `prevx`, emit the bucket mean at `prevx` and restart the bucket at the
current coordinate. -/
def compressStep (resolution : ℚ) (s : CompState) (gw : ℚ × ℚ) : CompState :=
  if |gw.1 - s.prevx| > resolution then
    ⟨gw.1, [],
      s.xs ++ [s.prevx],
      s.ws ++ [(s.tmpval ++ [gw.2]).sum / (((s.tmpval ++ [gw.2]).length : ℕ) : ℚ)]⟩
  else
    ⟨s.prevx, s.tmpval ++ [gw.2], s.xs, s.ws⟩

/-- The depth-compression loop of `new_src/plot_density_single`: `prevx`
starts at `graphcoords[0]`, the loop walks the samples in order, and the
pending bucket left at loop end is discarded.  Returns
`(compressed_x, compressed_wiggle)`. -/
def compress (graphcoords wiggle : List ℚ) (resolution : ℚ) : List ℚ × List ℚ :=
  match graphcoords with
  | [] => ([], [])
  | c0 :: _ =>
    ((( (graphcoords.zip wiggle).foldl (compressStep resolution) ⟨c0, [], [], []⟩ )).xs,
     (( (graphcoords.zip wiggle).foldl (compressStep resolution) ⟨c0, [], [], []⟩ )).ws)

/-- The corresponding loop of `utils/plot_density_single` lines 179-181:
no compression at all, every `(graph_coords[i], wiggle[i])` pair is kept
unchanged. -/
def utils_compress (graphcoords wiggle : List ℚ) : List ℚ × List ℚ :=
  (graphcoords.zip wiggle).foldl (fun acc gw => (acc.1 ++ [gw.1], acc.2 ++ [gw.2])) ([], [])

/-! ### Helper lemmas about the coordinate walk -/

theorem walkFrom_succ (inc : ℕ → ℚ) (n i : ℕ) (x : ℚ) :
    walkFrom inc (n + 1) i x = x :: walkFrom inc n (i + 1) (x + inc i) := rfl

theorem walkFrom_length (inc : ℕ → ℚ) :
    ∀ (n i : ℕ) (x : ℚ), (walkFrom inc n i x).length = n
  | 0, _, _ => rfl
  | n + 1, i, x => by
    rw [walkFrom_succ, List.length_cons, walkFrom_length inc n]

theorem walkFrom_head? (inc : ℕ → ℚ) (n i : ℕ) (x : ℚ) (h : n ≠ 0) :
    (walkFrom inc n i x).head? = some x := by
  cases n with
  | zero => exact absurd rfl h
  | succ m => rfl

theorem walkFrom_chain_le (inc : ℕ → ℚ) (h : ∀ j, 0 ≤ inc j) :
    ∀ (n i : ℕ) (x : ℚ), List.Chain' (· ≤ ·) (walkFrom inc n i x)
  | 0, _, _ => List.chain'_nil
  | n + 1, i, x => by
    rw [walkFrom_succ]
    refine List.Chain'.cons' (walkFrom_chain_le inc h n (i + 1) (x + inc i)) ?_
    intro y hy
    cases n with
    | zero => simp [walkFrom] at hy
    | succ m =>
      rw [walkFrom_head? inc (m + 1) (i + 1) (x + inc i) (Nat.succ_ne_zero m)] at hy
      simp only [Option.mem_def, Option.some.injEq] at hy
      subst hy
      linarith [h i]

theorem walkFrom_chain_ge (inc : ℕ → ℚ) (h : ∀ j, inc j ≤ 0) :
    ∀ (n i : ℕ) (x : ℚ), List.Chain' (· ≥ ·) (walkFrom inc n i x)
  | 0, _, _ => List.chain'_nil
  | n + 1, i, x => by
    rw [walkFrom_succ]
    refine List.Chain'.cons' (walkFrom_chain_ge inc h n (i + 1) (x + inc i)) ?_
    intro y hy
    cases n with
    | zero => simp [walkFrom] at hy
    | succ m =>
      rw [walkFrom_head? inc (m + 1) (i + 1) (x + inc i) (Nat.succ_ne_zero m)] at hy
      simp only [Option.mem_def, Option.some.injEq] at hy
      subst hy
      have := h i
      simp only [ge_iff_le]
      linarith

theorem walkFrom_getLast? (inc : ℕ → ℚ) :
    ∀ (n i : ℕ) (x : ℚ),
      (walkFrom inc (n + 1) i x).getLast? =
        some (x + ∑ j in Finset.range n, inc (i + j))
  | 0, i, x => by simp [walkFrom]
  | n + 1, i, x => by
    have hrw : walkFrom inc (n + 1 + 1) i x =
        x :: (x + inc i) :: walkFrom inc n (i + 1 + 1) (x + inc i + inc (i + 1)) := rfl
    rw [hrw, List.getLast?_cons_cons,
      show (x + inc i) :: walkFrom inc n (i + 1 + 1) (x + inc i + inc (i + 1)) =
        walkFrom inc (n + 1) (i + 1) (x + inc i) from rfl,
      walkFrom_getLast? inc n (i + 1) (x + inc i)]
    congr 1
    rw [Finset.sum_range_succ']
    have hargs : ∀ j, i + 1 + j = i + (j + 1) := fun j => by omega
    rw [Finset.sum_congr rfl fun j _ => by rw [hargs j]]
    simp only [Nat.add_zero]
    ring

/-! ### Helper lemmas about the compression loops -/

theorem compress_within_aux (res c0 : ℚ) :
    ∀ (pl : List (ℚ × ℚ)), (∀ p ∈ pl, |p.1 - c0| ≤ res) →
      ∀ (tmp xs ws : List ℚ),
        pl.foldl (compressStep res) ⟨c0, tmp, xs, ws⟩ = ⟨c0, tmp ++ pl.map Prod.snd, xs, ws⟩
  | [], _, tmp, xs, ws => by simp
  | p :: rest, h, tmp, xs, ws => by
    have hp : ¬ |p.1 - c0| > res := not_lt.mpr (h p (List.mem_cons_self p rest))
    rw [List.foldl_cons,
      show compressStep res ⟨c0, tmp, xs, ws⟩ p = ⟨c0, tmp ++ [p.2], xs, ws⟩ from by
        simp [compressStep, hp],
      compress_within_aux res c0 rest (fun q hq => h q (List.mem_cons_of_mem p hq)) _ _ _]
    simp

theorem compress_neg_aux (res : ℚ) (hres : res < 0) :
    ∀ (pl : List (ℚ × ℚ)) (px : ℚ) (xs ws : List ℚ),
      (pl.foldl (compressStep res) ⟨px, [], xs, ws⟩).xs =
          xs ++ (px :: pl.map Prod.fst).dropLast ∧
        (pl.foldl (compressStep res) ⟨px, [], xs, ws⟩).ws = ws ++ pl.map Prod.snd
  | [], px, xs, ws => by simp
  | p :: rest, px, xs, ws => by
    have hcond : |p.1 - px| > res := lt_of_lt_of_le hres (abs_nonneg _)
    rw [List.foldl_cons,
      show compressStep res ⟨px, [], xs, ws⟩ p = ⟨p.1, [], xs ++ [px], ws ++ [p.2]⟩ from by
        simp [compressStep, hcond]]
    obtain ⟨h1, h2⟩ := compress_neg_aux res hres rest p.1 (xs ++ [px]) (ws ++ [p.2])
    rw [h1, h2]
    constructor
    · rw [show (px :: List.map Prod.fst (p :: rest)).dropLast =
        px :: (p.1 :: List.map Prod.fst rest).dropLast from rfl]
      simp
    · simp

theorem utils_compress_aux :
    ∀ (pl : List (ℚ × ℚ)) (a b : List ℚ),
      pl.foldl (fun acc gw => (acc.1 ++ [gw.1], acc.2 ++ [gw.2])) (a, b) =
        (a ++ pl.map Prod.fst, b ++ pl.map Prod.snd)
  | [], a, b => by simp
  | p :: rest, a, b => by
    rw [List.foldl_cons, utils_compress_aux rest (a ++ [p.1]) (b ++ [p.2])]
    simp

/-! ### Claim theorems -/

/-- C1 counterexample: for the region `[0, 2]` with no exons and both scales
equal to `1`, the walk-order plot-coordinate sequence of `get_scaling` is
`[0, 1, 2]`, whose final value is `2`, while the sum over all three genomic
offsets of the per-offset increment is `3`.  The claim states the final
value equals the sum over all offsets, which is false here. -/
theorem get_scaling_final_value_counterexample :
    (get_scaling_walk 0 2 [] [] 1 1).getLast? = some 2 ∧
    (∑ j in Finset.range 3, scalingInc (exonic 3 0 [] []) 1 1 j) = 3 ∧
    some (2 : ℚ) ≠ some (3 : ℚ) := by
  refine ⟨?_, ?_, by norm_num⟩
  · norm_num [get_scaling_walk, walkFrom, scalingInc, exonic]
  · norm_num [Finset.sum_range_succ, scalingInc, exonic]

/-- C1 (amended): for every region with `tx_start ≤ tx_end`, every strand
and `reverse_minus` setting, and positive exon and intron scales, the
plot-coordinate sequence of `get_scaling` in walk order is monotonic
non-decreasing, and its final value equals the sum of the per-offset
increments (`1/exon_scale` on exonic offsets, `1/intron_scale` on intronic
ones) over all genomic offsets of the region except the offset visited
last in the walk: the loop records the coordinate before advancing, so the
increment of the final visited offset is never added to a recorded value —
on the forward fill the omitted offset is the last genomic offset, on the
`reverse_minus` fill (which walks the offsets descending) it is the first.
The returned `graph_coords` array is this walk-order sequence, reversed in
the `reverse_minus` case. -/
theorem get_scaling_walk_monotone_final (tx_start tx_end : ℤ) (strand : PyVal)
    (exon_starts exon_ends : List ℤ) (intron_scale exon_scale : ℚ) (reverse_minus : Bool)
    (hle : tx_start ≤ tx_end) (hi : 0 < intron_scale) (he : 0 < exon_scale) :
    List.Chain' (· ≤ ·)
      (get_scaling_walk_order tx_start tx_end strand exon_starts exon_ends intron_scale
        exon_scale reverse_minus) ∧
    (get_scaling_walk_order tx_start tx_end strand exon_starts exon_ends intron_scale
        exon_scale reverse_minus).getLast? =
      some (∑ j in Finset.range ((tx_end - tx_start + 1).toNat - 1),
        scalingInc (exonic (tx_end - tx_start + 1).toNat tx_start exon_starts exon_ends)
          exon_scale intron_scale
          (get_scaling_visited tx_start tx_end strand reverse_minus j)) ∧
    (get_scaling_coords tx_start tx_end strand exon_starts exon_ends intron_scale exon_scale
        reverse_minus =
      get_scaling_walk_order tx_start tx_end strand exon_starts exon_ends intron_scale
        exon_scale reverse_minus ∨
      get_scaling_coords tx_start tx_end strand exon_starts exon_ends intron_scale exon_scale
        reverse_minus =
      (get_scaling_walk_order tx_start tx_end strand exon_starts exon_ends intron_scale
        exon_scale reverse_minus).reverse) := by
  have hpos : ∀ j, 0 ≤ scalingInc
      (exonic (tx_end - tx_start + 1).toNat tx_start exon_starts exon_ends)
      exon_scale intron_scale j := by
    intro j
    unfold scalingInc
    split
    · positivity
    · positivity
  obtain ⟨m, hm⟩ : ∃ m, (tx_end - tx_start + 1).toNat = m + 1 :=
    ⟨(tx_end - tx_start).toNat, by omega⟩
  cases hbr : (strand.isPlusStr || !reverse_minus) with
  | true =>
    refine ⟨?_, ?_, Or.inl ?_⟩
    · simp only [get_scaling_walk_order, hbr, if_true, get_scaling_walk]
      exact walkFrom_chain_le _ hpos _ _ _
    · simp only [get_scaling_walk_order, hbr, if_true, get_scaling_walk, hm,
        walkFrom_getLast?]
      simp only [get_scaling_visited, hbr, if_true, Nat.add_sub_cancel, Nat.zero_add,
        zero_add]
    · simp only [get_scaling_coords, get_scaling_walk_order, hbr, if_true]
  | false =>
    refine ⟨?_, ?_, Or.inr ?_⟩
    · simp only [get_scaling_walk_order, hbr, Bool.false_eq_true, if_false]
      exact walkFrom_chain_le _ (fun j => hpos _) _ _ _
    · simp only [get_scaling_walk_order, hbr, Bool.false_eq_true, if_false, hm,
        walkFrom_getLast?]
      simp only [get_scaling_visited, hbr, Bool.false_eq_true, if_false, hm,
        Nat.add_sub_cancel, Nat.zero_add, zero_add]
    · simp only [get_scaling_coords, get_scaling_walk_order, hbr, Bool.false_eq_true,
        if_false]

/-- C1 witness: the amended statement on the `reverse_minus` branch — a
minus-strand region over `[0, 1]` with an exon covering offset 1,
exon scale 2, intron scale 1 and `reverse_minus` set (the walk there is
`[0, 1/2]`: it visits the exonic offset 1 first, and its final value omits
the increment of the first genomic offset). -/
theorem get_scaling_walk_monotone_final_witness :
    List.Chain' (· ≤ ·) (get_scaling_walk_order 0 1 minusStrand [1] [2] 1 2 true) ∧
    (get_scaling_walk_order 0 1 minusStrand [1] [2] 1 2 true).getLast? =
      some (∑ j in Finset.range (((1 : ℤ) - 0 + 1).toNat - 1),
        scalingInc (exonic ((1 : ℤ) - 0 + 1).toNat 0 [1] [2]) 2 1
          (get_scaling_visited 0 1 minusStrand true j)) ∧
    (get_scaling_coords 0 1 minusStrand [1] [2] 1 2 true =
      get_scaling_walk_order 0 1 minusStrand [1] [2] 1 2 true ∨
      get_scaling_coords 0 1 minusStrand [1] [2] 1 2 true =
      (get_scaling_walk_order 0 1 minusStrand [1] [2] 1 2 true).reverse) :=
  get_scaling_walk_monotone_final 0 1 minusStrand [1] [2] 1 2 true (by norm_num)
    (by norm_num) (by norm_num)

/-- C2 (code bug witness): `new_src/plot_density` line 298 assigns
`strand = splice_region.start`, so the strand value reaching `get_scaling`
is the region's integer start coordinate, which never compares equal to the
plus string.  Consequently for a plus-strand region starting at `0` over
`[0, 2]` with `reverse_minus` set, `new_src` produces the back-to-front
(mirrored) array `[2, 1, 0]`, while the same call with the actual strand
string (as `utils/plot_density` passes it) produces the front-to-back
array `[0, 1, 2]`.  The claim — a plus-strand region is never mirrored —
is violated by the `new_src` caller. -/
theorem newsrc_plus_strand_mirrored :
    get_scaling_coords 0 2 (newsrc_strand_arg 0) [] [] 1 1 true = [2, 1, 0] ∧
    get_scaling_coords 0 2 plusStrand [] [] 1 1 true = [0, 1, 2] ∧
    ([2, 1, 0] : List ℚ) ≠ [0, 1, 2] := by
  refine ⟨?_, ?_, by norm_num⟩
  · norm_num [get_scaling_coords, newsrc_strand_arg, PyVal.isPlusStr, get_scaling_walk,
      walkFrom, scalingInc, exonic]
  · norm_num [get_scaling_coords, plusStrand, plusSign, PyVal.isPlusStr, get_scaling_walk,
      walkFrom, scalingInc, exonic]

/-- C3 counterexample: in the window `[10, 20]` (array length 11), the
junction `(10, 15)` lies entirely within `[tx_start, tx_end]`, yet its left
endpoint is flagged modified, because the left endpoint resolves to index
`start - tx_start - 1 = -1 < 0`.  The claim says neither endpoint of a
fully-contained junction is flagged. -/
theorem junction_flag_boundary_counterexample :
    (10 : ℤ) ≤ 10 ∧ (10 : ℤ) ≤ 15 ∧ (15 : ℤ) ≤ 20 ∧
    (junction_ss_flags 10 11 ⟨10, 15⟩).1.2 = true := by
  refine ⟨le_refl _, by norm_num, by norm_num, ?_⟩
  norm_num [junction_ss_flags, get_limited_index]

/-- C3 (amended): with `L = tx_end - tx_start + 1`, the left endpoint
resolves to index `start - tx_start - 1` and the right to
`end - tx_start`.  Hence neither endpoint is flagged modified exactly for
junctions with `tx_start < start ≤ tx_end + 1` and
`tx_start ≤ end ≤ tx_end` (a junction starting exactly at `tx_start` has
its left endpoint flagged); a junction with `start ≤ tx_start` and its end
inside the window has exactly the left endpoint flagged; a junction with
`tx_start < start ≤ tx_end + 1` and `end > tx_end` has exactly the right
endpoint flagged. -/
theorem junction_flags_characterization (tx_start tx_end l r : ℤ)
    (h : tx_start ≤ tx_end) :
    ((tx_start < l ∧ l ≤ tx_end + 1 ∧ tx_start ≤ r ∧ r ≤ tx_end) →
      (junction_ss_flags tx_start (tx_end - tx_start + 1).toNat ⟨l, r⟩).1.2 = false ∧
      (junction_ss_flags tx_start (tx_end - tx_start + 1).toNat ⟨l, r⟩).2.2 = false) ∧
    ((l ≤ tx_start ∧ tx_start ≤ r ∧ r ≤ tx_end) →
      (junction_ss_flags tx_start (tx_end - tx_start + 1).toNat ⟨l, r⟩).1.2 = true ∧
      (junction_ss_flags tx_start (tx_end - tx_start + 1).toNat ⟨l, r⟩).2.2 = false) ∧
    ((tx_start < l ∧ l ≤ tx_end + 1 ∧ tx_end < r) →
      (junction_ss_flags tx_start (tx_end - tx_start + 1).toNat ⟨l, r⟩).1.2 = false ∧
      (junction_ss_flags tx_start (tx_end - tx_start + 1).toNat ⟨l, r⟩).2.2 = true) := by
  have hL : (((tx_end - tx_start + 1).toNat : ℕ) : ℤ) = tx_end - tx_start + 1 := by omega
  refine ⟨fun hc => ?_, fun hc => ?_, fun hc => ?_⟩ <;>
    simp only [junction_ss_flags, get_limited_index] <;>
    split_ifs <;> simp_all <;> omega

/-- C3 witness: the amended statement's fully-contained case at the window
`[10, 20]` and junction `(11, 15)`. -/
theorem junction_flags_characterization_witness :
    ((10 : ℤ) < 11 ∧ (11 : ℤ) ≤ 20 + 1 ∧ (10 : ℤ) ≤ 15 ∧ (15 : ℤ) ≤ 20) ∧
    (junction_ss_flags 10 ((20 : ℤ) - 10 + 1).toNat ⟨11, 15⟩).1.2 = false ∧
    (junction_ss_flags 10 ((20 : ℤ) - 10 + 1).toNat ⟨11, 15⟩).2.2 = false :=
  ⟨by norm_num,
    (junction_flags_characterization 10 20 11 15 (by norm_num)).1 (by norm_num)⟩

/-- C4 counterexample: `new_src/plot_density_single` sorts the junction
keys with plain `sorted(jxns.keys())`.  For the junctions `(10, 20)` (span
10) and `(15, 100)` (span 85), that order keeps `(10, 20)` first, so the
junction with the largest genomic span is not laid out first, contradicting
the claim for the `new_src` layout (the `utils` sort does put `(15, 100)`
first). -/
theorem newsrc_sort_not_span_descending :
    newsrc_sort [⟨10, 20⟩, ⟨15, 100⟩] = [⟨10, 20⟩, ⟨15, 100⟩] ∧
    utils_sort [⟨10, 20⟩, ⟨15, 100⟩] = [⟨15, 100⟩, ⟨10, 20⟩] ∧
    Junction.span ⟨10, 20⟩ < Junction.span ⟨15, 100⟩ := by
  refine ⟨?_, ?_, by norm_num [Junction.span]⟩
  · norm_num [newsrc_sort, List.insertionSort, List.orderedInsert, jle]
  · norm_num [utils_sort, List.insertionSort, List.orderedInsert, spanGE, Junction.span]

/-- C4 (amended): in `utils`, the junction layout order is sorted by
genomic span descending (stably, hence deterministically for equal spans)
and is a permutation of the input set; in `new_src`, the layout order is
instead sorted ascending by the junctions' natural key order (modelled as
lexicographic on `(start, end)`), which does not place the largest span
first. -/
theorem junction_sort_orders (l : List Junction) :
    List.Sorted spanGE (utils_sort l) ∧ (utils_sort l).Perm l ∧
    List.Sorted jle (newsrc_sort l) ∧ (newsrc_sort l).Perm l :=
  ⟨List.sorted_insertionSort spanGE l, List.perm_insertionSort spanGE l,
    List.sorted_insertionSort jle l, List.perm_insertionSort jle l⟩

/-- C5 counterexample: in `utils/plot_density_single` the junction of rank
0 (even, `plotted_count % 2 == 0`) is drawn on the bottom: with unmodified
endpoints at plot coordinates 1 and 2, depth values 5 and 7 and
`current_height = 3`, its control points are
`[(1, 0), (1, -3), (2, -3), (2, 0)]`, all at non-positive heights; the
claim says an even-ranked junction is drawn above the signal with its left
anchor at the depth value 5, but the anchor height is 0. -/
theorem utils_even_rank_below_counterexample :
    utils_junction_pts 0 1 2 false false 5 7 false 3 =
      [(1, 0), (1, -3), (2, -3), (2, 0)] ∧
    (0 : ℚ) ≠ 5 := by
  refine ⟨?_, by norm_num⟩
  norm_num [utils_junction_pts]

/-- C5 (amended): the two implementations use opposite parities.  In
`utils`, every even-ranked junction is drawn below the baseline at
non-positive heights and every odd-ranked junction above the signal with
endpoint anchors at the depth-array values; in `new_src`, every even-ranked
junction is drawn above with anchors at the depth values and every
odd-ranked one below at non-positive heights (so the claim's parity
matches `new_src` only). -/
theorem junction_parity_placement (plotted_count : ℕ) (ss1 ss2 left_dens right_dens ch : ℚ)
    (hch : 0 ≤ ch) (hld : 0 ≤ left_dens) (hrd : 0 ≤ right_dens) :
    (plotted_count % 2 = 0 →
      ∀ p ∈ utils_junction_pts plotted_count ss1 ss2 false false left_dens right_dens false ch,
        p.2 ≤ 0) ∧
    (plotted_count % 2 = 1 →
      (utils_junction_pts plotted_count ss1 ss2 false false left_dens right_dens false ch).head? =
        some (ss1, left_dens) ∧
      (utils_junction_pts plotted_count ss1 ss2 false false left_dens right_dens false
        ch).getLast? = some (ss2, right_dens) ∧
      ∀ p ∈ utils_junction_pts plotted_count ss1 ss2 false false left_dens right_dens false ch,
        0 ≤ p.2) ∧
    (plotted_count % 2 = 0 →
      (newsrc_junction_pts plotted_count ss1 ss2 left_dens right_dens ch).head? =
        some (ss1, left_dens) ∧
      (newsrc_junction_pts plotted_count ss1 ss2 left_dens right_dens ch).getLast? =
        some (ss2, right_dens)) ∧
    (plotted_count % 2 = 1 →
      ∀ p ∈ newsrc_junction_pts plotted_count ss1 ss2 left_dens right_dens ch, p.2 ≤ 0) := by
  refine ⟨fun hp => ?_, fun hp => ?_, fun hp => ?_, fun hp => ?_⟩
  · intro p hmem
    simp only [utils_junction_pts, hp, if_true, reduceIte, List.mem_cons,
      List.mem_singleton, List.not_mem_nil, or_false] at hmem
    rcases hmem with h | h | h | h <;> subst h <;> simp <;> linarith
  · have hne : ¬ plotted_count % 2 = 0 := by omega
    simp only [utils_junction_pts, hne, if_false, reduceIte, Bool.false_eq_true]
    refine ⟨rfl, rfl, ?_⟩
    intro p hmem
    simp only [List.mem_cons, List.not_mem_nil, or_false] at hmem
    rcases hmem with h | h | h | h <;> subst h <;> simp <;> linarith
  · have hne : ¬ plotted_count % 2 = 1 := by omega
    simp only [newsrc_junction_pts, hne, if_false, reduceIte]
    exact ⟨rfl, rfl⟩
  · intro p hmem
    simp only [newsrc_junction_pts, hp, if_true, reduceIte, List.mem_cons,
      List.not_mem_nil, or_false] at hmem
    rcases hmem with h | h | h | h <;> subst h <;> simp <;> linarith

/-- C5 witness: the amended statement at rank 1, endpoints 1 and 2, depth
values 5 and 7, height 3. -/
theorem junction_parity_placement_witness :
    ((1 : ℕ) % 2 = 0 → ∀ p ∈ utils_junction_pts 1 1 2 false false 5 7 false 3, p.2 ≤ 0) ∧
    ((1 : ℕ) % 2 = 1 →
      (utils_junction_pts 1 1 2 false false 5 7 false 3).head? = some (1, 5) ∧
      (utils_junction_pts 1 1 2 false false 5 7 false 3).getLast? = some (2, 7) ∧
      ∀ p ∈ utils_junction_pts 1 1 2 false false 5 7 false 3, 0 ≤ p.2) ∧
    ((1 : ℕ) % 2 = 0 →
      (newsrc_junction_pts 1 1 2 5 7 3).head? = some (1, 5) ∧
      (newsrc_junction_pts 1 1 2 5 7 3).getLast? = some (2, 7)) ∧
    ((1 : ℕ) % 2 = 1 → ∀ p ∈ newsrc_junction_pts 1 1 2 5 7 3, p.2 ≤ 0) :=
  junction_parity_placement 1 1 2 5 7 3 (by norm_num) (by norm_num) (by norm_num)

/-- C6 counterexample: `new_src/plot_density_single` draws every junction
with the fixed stroke width `0.5`; for the panel counts `{5, 20}` with
minimum width `0.2` the spec formula demands widths `0.2` and `1.2`, so
the width of the count-20 junction differs from the claim. -/
theorem newsrc_width_constant_counterexample :
    newsrc_line_width = 0.5 ∧
    spec_stroke_width 0.2 20 5 20 = 1.2 ∧
    newsrc_line_width ≠ spec_stroke_width 0.2 20 5 20 := by
  norm_num [newsrc_line_width, spec_stroke_width]

/-- C6 (amended): in `utils`, whenever the panel's junction counts are not
all equal the stroke width is exactly
`0.2 + (count - minCount) / (maxCount - minCount)` — the spec formula with
`minWidth = 0.2` — and when the maximum equals the minimum the width is
clamped to `0.2` with no division by zero; the counts `{5, 20}` yield
widths `0.2` and `1.2`.  In `new_src` the stroke width is the fixed
constant `0.5` for every junction. -/
theorem line_width_encoding (count min_count max_count : ℚ) (h : min_count < max_count) :
    utils_line_width count min_count max_count =
      spec_stroke_width 0.2 count min_count max_count ∧
    (∀ c m : ℚ, utils_line_width c m m = 0.2) ∧
    utils_line_width 5 5 20 = 0.2 ∧
    utils_line_width 20 5 20 = 1.2 ∧
    newsrc_line_width = 0.5 := by
  refine ⟨?_, fun c m => ?_, ?_, ?_, rfl⟩
  · rw [utils_line_width, spec_stroke_width, if_pos (by linarith)]
    ring
  · norm_num [utils_line_width]
  · norm_num [utils_line_width]
  · norm_num [utils_line_width]

/-- C6 witness: the amended statement at count 7 within counts bounded by
5 and 20. -/
theorem line_width_encoding_witness :
    utils_line_width 7 5 20 = spec_stroke_width 0.2 7 5 20 ∧
    (∀ c m : ℚ, utils_line_width c m m = 0.2) ∧
    utils_line_width 5 5 20 = 0.2 ∧
    utils_line_width 20 5 20 = 1.2 ∧
    newsrc_line_width = 0.5 :=
  line_width_encoding 7 5 20 (by norm_num)

/-- C7 counterexample: `utils/plot_density` computes the upper y bound
inside the per-sample loop from each panel's own maximum: for panel maxima
`[3, 5]` the panels get the distinct bounds `4` and `6`, so no single
shared bound (which the claim says should be `6` for both) is applied. -/
theorem utils_per_panel_bound_counterexample :
    utils_panel_bounds [3, 5] = [4, 6] ∧ (4 : ℚ) ≠ 6 := by
  refine ⟨?_, by norm_num⟩
  norm_num [utils_panel_bounds, utils_panel_bound, pyFloatMod2]

/-- C7 (amended): only `new_src/plot_density` computes one bound shared by
all panels: the ceiling of the maximum of the panels' axis upper limits,
incremented by one when odd — it is always even, at least the maximum, and
equals `10` for `[3, 7, 10]` and `6` for `[3, 5]`.  `utils/plot_density`
instead gives each panel its own bound from that panel's own maximum
(odd values incremented by one), so panels with different maxima get
different bounds, e.g. `[4, 6]` for maxima `[3, 5]`. -/
theorem axis_bound_characterization (used_yvals : List ℚ) :
    newsrc_shared_bound used_yvals % 2 = 0 ∧
    pyListMax used_yvals ≤ (newsrc_shared_bound used_yvals : ℚ) ∧
    newsrc_shared_bound [3, 7, 10] = 10 ∧
    newsrc_shared_bound [3, 5] = 6 ∧
    utils_panel_bounds [3, 5] = [4, 6] := by
  refine ⟨?_, ?_, ?_, ?_, ?_⟩
  · rw [newsrc_shared_bound]
    split_ifs with hodd <;> omega
  · rw [newsrc_shared_bound]
    have hceil : pyListMax used_yvals ≤ ((⌈pyListMax used_yvals⌉ : ℤ) : ℚ) :=
      Int.le_ceil _
    split_ifs with hodd
    · push_cast
      push_cast at hceil
      linarith
    · exact hceil
  · norm_num [newsrc_shared_bound, pyListMax]
  · norm_num [newsrc_shared_bound, pyListMax]
  · norm_num [utils_panel_bounds, utils_panel_bound, pyFloatMod2]

/-- C8 counterexample: with resolution `-1` (non-positive) on coordinates
`[0, 1, 2]` and depths `[10, 20, 30]`, the `new_src` compression loop emits
`([0, 0, 1], [10, 20, 30])`: one point per sample with the right depths but
the previous sample's coordinate, not the identity `([0, 1, 2], [10, 20, 30])`
the claim demands. -/
theorem compress_not_identity_counterexample :
    compress [0, 1, 2] [10, 20, 30] (-1) = ([0, 0, 1], [10, 20, 30]) ∧
    (([0, 0, 1] : List ℚ), ([10, 20, 30] : List ℚ)) ≠ ([0, 1, 2], [10, 20, 30]) := by
  refine ⟨?_, by norm_num⟩
  norm_num [compress, compressStep, List.zip]

/-- C8 (amended): with a negative resolution the `new_src` compression loop
performs no division by zero (every emitted bucket holds exactly one
sample) and emits exactly one output point per input sample whose depth
equals that sample's depth, but whose coordinate is the preceding sample's
coordinate (the first point keeps the first coordinate) — it is not the
identity on coordinates.  The corresponding `utils` loop is the true
identity mapping. -/
theorem compress_neg_resolution (c0 : ℚ) (rest wiggle : List ℚ) (res : ℚ)
    (hres : res < 0) (hlen : (c0 :: rest).length = wiggle.length) :
    compress (c0 :: rest) wiggle res = (c0 :: (c0 :: rest).dropLast, wiggle) ∧
    utils_compress (c0 :: rest) wiggle = (c0 :: rest, wiggle) := by
  have hfst : ((c0 :: rest).zip wiggle).map Prod.fst = c0 :: rest :=
    List.map_fst_zip _ _ (le_of_eq hlen)
  have hsnd : ((c0 :: rest).zip wiggle).map Prod.snd = wiggle :=
    List.map_snd_zip _ _ (le_of_eq hlen.symm)
  obtain ⟨h1, h2⟩ := compress_neg_aux res hres ((c0 :: rest).zip wiggle) c0 [] []
  constructor
  · show ((((c0 :: rest).zip wiggle).foldl (compressStep res) ⟨c0, [], [], []⟩).xs,
      (((c0 :: rest).zip wiggle).foldl (compressStep res) ⟨c0, [], [], []⟩).ws) = _
    rw [h1, h2, hfst, hsnd]
    rfl
  · rw [utils_compress, utils_compress_aux, hfst, hsnd]
    rfl

/-- C8 witness: the amended statement at coordinates `[0, 1, 2]`, depths
`[10, 20, 30]` and resolution `-1`. -/
theorem compress_neg_resolution_witness :
    compress (0 :: [1, 2]) [10, 20, 30] (-1) =
      ((0 : ℚ) :: ((0 : ℚ) :: [1, 2]).dropLast, [10, 20, 30]) ∧
    utils_compress (0 :: [1, 2]) [10, 20, 30] = ((0 : ℚ) :: [1, 2], [10, 20, 30]) :=
  compress_neg_resolution 0 [1, 2] [10, 20, 30] (-1) (by norm_num) (by norm_num)

/-- C9 counterexample: with intron scale and exon scale `-1` (non-positive)
the render proceeds rather than failing: `get_scaling` computes the full
coordinate array `[0, -1, -2]`, and with resolution `-1` (non-positive) the
depth loop emits output; the code contains no ConfigurationError and no
validation of these settings. -/
theorem no_config_validation_counterexample :
    get_scaling_coords 0 2 plusStrand [] [] (-1) (-1) false = [0, -1, -2] ∧
    compress [0, 1, 2] [5, 15, 25] (-1) = ([0, 0, 1], [5, 15, 25]) ∧
    ([0, -1, -2] : List ℚ) ≠ [] := by
  refine ⟨?_, ?_, by simp⟩
  · norm_num [get_scaling_coords, plusStrand, plusSign, PyVal.isPlusStr, get_scaling_walk,
      walkFrom, scalingInc, exonic]
  · norm_num [compress, compressStep, List.zip]

/-- C9 (amended): no configuration validation exists: with negative exon
and intron scales the render still computes the full-length coordinate
array (now monotonically non-increasing), and with a negative resolution
the depth-compression loop still runs and emits every depth value; no
ConfigurationError aborts the render before layout work. -/
theorem nonpositive_config_proceeds (tx_start tx_end : ℤ)
    (exon_starts exon_ends : List ℤ) (intron_scale exon_scale : ℚ)
    (hi : intron_scale < 0) (he : exon_scale < 0) :
    (get_scaling_walk tx_start tx_end exon_starts exon_ends intron_scale exon_scale).length =
      (tx_end - tx_start + 1).toNat ∧
    List.Chain' (· ≥ ·)
      (get_scaling_walk tx_start tx_end exon_starts exon_ends intron_scale exon_scale) ∧
    (∀ (c0 res : ℚ) (rest w : List ℚ), res < 0 → (c0 :: rest).length = w.length →
      (compress (c0 :: rest) w res).2 = w) := by
  refine ⟨walkFrom_length _ _ _ _, ?_, ?_⟩
  · apply walkFrom_chain_ge
    intro j
    unfold scalingInc
    split
    · exact le_of_lt (one_div_neg.mpr he)
    · exact le_of_lt (one_div_neg.mpr hi)
  · intro c0 res rest w hres hlen
    obtain ⟨_, h2⟩ := compress_neg_aux res hres ((c0 :: rest).zip w) c0 [] []
    have hsnd : ((c0 :: rest).zip w).map Prod.snd = w :=
      List.map_snd_zip _ _ (le_of_eq hlen.symm)
    show (((c0 :: rest).zip w).foldl (compressStep res) ⟨c0, [], [], []⟩).ws = w
    rw [h2, hsnd]
    rfl

/-- C9 witness: the amended statement on the region `[0, 2]` with both
scales `-1`. -/
theorem nonpositive_config_proceeds_witness :
    (get_scaling_walk 0 2 [] [] (-1) (-1)).length = ((2 : ℤ) - 0 + 1).toNat ∧
    List.Chain' (· ≥ ·) (get_scaling_walk 0 2 [] [] (-1) (-1)) ∧
    (∀ (c0 res : ℚ) (rest w : List ℚ), res < 0 → (c0 :: rest).length = w.length →
      (compress (c0 :: rest) w res).2 = w) :=
  nonpositive_config_proceeds 0 2 [] [] (-1) (-1) (by norm_num) (by norm_num)

/-- C10 (confirmed): in the `new_src` depth-compression loop a bucket is
emitted only when a sample's coordinate lies more than `resolution` away
from the bucket's start, and the pending bucket is discarded at loop end;
hence whenever all plot coordinates lie within `resolution` of the first
coordinate, the compressed output is completely empty even though the
input depth array is non-empty. -/
theorem compress_within_resolution_all_empty (graphcoords wiggle : List ℚ) (res c0 : ℚ)
    (hhead : graphcoords.head? = some c0)
    (hwithin : ∀ c ∈ graphcoords, |c - c0| ≤ res)
    (_hne : wiggle ≠ []) :
    compress graphcoords wiggle res = ([], []) := by
  cases graphcoords with
  | nil => simp at hhead
  | cons c0' rest =>
    obtain rfl : c0' = c0 := by simpa using hhead
    have hmem : ∀ p ∈ (c0' :: rest).zip wiggle, |p.1 - c0'| ≤ res := by
      intro p hp
      obtain ⟨a, b⟩ := p
      exact hwithin a (List.of_mem_zip hp).1
    show ((((c0' :: rest).zip wiggle).foldl (compressStep res) ⟨c0', [], [], []⟩).xs,
      (((c0' :: rest).zip wiggle).foldl (compressStep res) ⟨c0', [], [], []⟩).ws) = ([], [])
    rw [compress_within_aux res c0' ((c0' :: rest).zip wiggle) hmem [] [] []]

/-- C10 witness: coordinates `[0, 1/2]` all within resolution `1` of the
first coordinate, non-empty depths `[10, 20]`: the compressed output is
empty. -/
theorem compress_within_resolution_all_empty_witness :
    ([0, 1/2] : List ℚ).head? = some 0 ∧
    (∀ c ∈ ([0, 1/2] : List ℚ), |c - 0| ≤ 1) ∧
    ([10, 20] : List ℚ) ≠ [] ∧
    compress [0, 1/2] [10, 20] 1 = ([], []) :=
  ⟨rfl, by intro c hc; fin_cases hc <;> norm_num [abs_le], by simp,
    compress_within_resolution_all_empty [0, 1/2] [10, 20] 1 0 rfl
      (by intro c hc; fin_cases hc <;> norm_num [abs_le]) (by simp)⟩
